import Mathlib

/-!
Verification development for the tgen driver `run_tgen.py`.

The driver script is shallowly embedded below:
* Python's `getopt.getopt` short-option parser (the stdlib routine the
  driver relies on) is modelled faithfully, including its error behavior;
* Python `int(...)` / `float(...)` literal parsing is modelled by partial
  parsers returning `Option` (a `none` result corresponds to a raised
  `ValueError`);
* the four driver actions (`candgen_train`, `percrank_train`, `sample_gen`,
  `asearch_gen`) and the `__main__` block are embedded as pure functions
  producing an `Outcome`: a trace of the external effects performed, ending
  either normally, in a `sys.exit`, or in an uncaught exception;
* the computational loops of `sample_gen` (generation of N trees per
  dialogue act, oracle evaluation) and of `asearch_gen`'s evaluation branch
  are embedded as parametric pure functions (the tree generator, the
  dialogue-act reader and the per-tree counting function are collaborators
  supplied as arguments).
Helpers that live in the wider repository but outside the driver file
(`tgen.eval`, `tgen.futil`) are modelled from the specification, as noted
in their doc comments.
-/

namespace Tgen

/-! ## Python literal parsing -/

/-- Value of a digit string (most significant first); `none` on a
non-digit character.  Used by the `int(...)`/`float(...)` models. -/
def digitsVal (cs : List Char) : Option Nat :=
  cs.foldlM (fun acc c => if c.isDigit then some (acc * 10 + (c.toNat - 48)) else none) 0

/-- Python's notion of whitespace for `str.strip()` as applied by
`int(...)`/`float(...)`. -/
def isPySpace (c : Char) : Bool :=
  c = ' ' ∨ c = '\t' ∨ c = '\n' ∨ c = '\r' ∨ c = '\x0b' ∨ c = '\x0c'

/-- Strip leading and trailing whitespace from a character list. -/
def pyStrip (cs : List Char) : List Char :=
  ((cs.dropWhile isPySpace).reverse.dropWhile isPySpace).reverse

/-- Model of Python `int(s)` (base 10): optional surrounding whitespace,
optional sign, then one or more digits.  `none` models a `ValueError`. -/
def pyInt (s : String) : Option Int :=
  match pyStrip s.toList with
  | [] => none
  | '-' :: rest =>
    if rest.isEmpty then none else (digitsVal rest).map (fun n => -(n : Int))
  | '+' :: rest =>
    if rest.isEmpty then none else (digitsVal rest).map (fun n => (n : Int))
  | rest => (digitsVal rest).map (fun n => (n : Int))

/-- Numeric part of a Python float literal: digits, optionally followed by
a dot and further digits (covers the forms the driver's options use;
other accepted spellings such as exponents are not needed here). -/
def pyFloatCore (cs : List Char) : Option ℚ :=
  let intPart := cs.takeWhile (·.isDigit)
  let rest := cs.dropWhile (·.isDigit)
  match rest with
  | [] =>
    if intPart.isEmpty then none
    else (digitsVal intPart).map (fun n => (n : ℚ))
  | '.' :: frac =>
    if frac.all (·.isDigit) ∧ (¬ intPart.isEmpty ∨ ¬ frac.isEmpty) then
      (digitsVal intPart).bind (fun i =>
        (digitsVal frac).map (fun f => (i : ℚ) + (f : ℚ) / ((10 : ℚ) ^ frac.length)))
    else none
  | _ => none

/-- Model of Python `float(s)` on decimal literals.  `none` models a
`ValueError`. -/
def pyFloat (s : String) : Option ℚ :=
  match pyStrip s.toList with
  | '-' :: rest => (pyFloatCore rest).map (fun q => -q)
  | '+' :: rest => pyFloatCore rest
  | rest => pyFloatCore rest

/-! ## Python `getopt` (short options only, as used by the driver) -/

/-- An option as returned by `getopt`: `("-x", argument-or-empty)`. -/
abbrev Opt := String × String

/-- The option name string, a dash followed by the option character. -/
def optName (c : Char) : String := String.mk ['-', c]

/-- Model of `getopt.short_has_arg`: scan the option string for the
character; a following `':'` means the option takes an argument; an
absent character is a `GetoptError`. -/
def short_has_arg (opt : Char) (shortopts : List Char) : Except String Bool :=
  match shortopts with
  | [] => .error ("option " ++ optName opt ++ " not recognized")
  | c :: rest =>
    if opt = c ∧ c ≠ ':' then
      .ok (match rest with | ':' :: _ => true | _ => false)
    else short_has_arg opt rest

/-- Model of `getopt.do_shorts`: consume the option characters of one
`-xyz` token, taking argument values from the token remainder or the next
argument as Python does. -/
def do_shorts (optchars : List Char) (shortopts : List Char) (args : List String) :
    Except String (List Opt × List String) :=
  match optchars with
  | [] => .ok ([], args)
  | opt :: rest =>
    match short_has_arg opt shortopts with
    | .error e => .error e
    | .ok true =>
      match rest with
      | [] =>
        match args with
        | [] => .error ("option " ++ optName opt ++ " requires argument")
        | a :: args2 => .ok ([(optName opt, a)], args2)
      | _ => .ok ([(optName opt, String.mk rest)], args)
    | .ok false =>
      match do_shorts rest shortopts args with
      | .error e => .error e
      | .ok (opts, args2) => .ok ((optName opt, "") :: opts, args2)

theorem do_shorts_args_le (optchars shortopts : List Char) (args : List String)
    (opts : List Opt) (args2 : List String)
    (h : do_shorts optchars shortopts args = .ok (opts, args2)) :
    args2.length ≤ args.length := by
  induction optchars generalizing opts args2 with
  | nil =>
    simp only [do_shorts, Except.ok.injEq, Prod.mk.injEq] at h
    simp [← h.2]
  | cons opt rest ih =>
    simp only [do_shorts] at h
    rcases hsa : short_has_arg opt shortopts with e | b
    · rw [hsa] at h; exact absurd h (by simp)
    · rw [hsa] at h
      cases b with
      | true =>
        cases rest with
        | nil =>
          cases args with
          | nil => exact absurd h (by simp)
          | cons a args' =>
            simp only [Except.ok.injEq, Prod.mk.injEq] at h
            simp [← h.2, List.length_cons]
        | cons r rs =>
          simp only [Except.ok.injEq, Prod.mk.injEq] at h
          simp [← h.2]
      | false =>
        rcases hrec : do_shorts rest shortopts args with e | pr
        · rw [hrec] at h; exact absurd h (by simp)
        · rw [hrec] at h
          obtain ⟨o2, a2⟩ := pr
          simp only [Except.ok.injEq, Prod.mk.injEq] at h
          rw [← h.2]
          exact ih o2 a2 hrec

/-- Whether the string begins with the given pattern (same as Python's
`str.startswith`). -/
def strStartsWith (s pre : String) : Bool := pre.toList.isPrefixOf s.toList

/-- Model of the main loop of `getopt.getopt` with no long options:
consume option tokens until the first non-option argument (or `--`),
returning the parsed options and the remaining positional arguments. -/
def getoptGo (shortopts : List Char) (args : List String) :
    Except String (List Opt × List String) :=
  match args with
  | [] => .ok ([], [])
  | a :: rest =>
    if strStartsWith a "-" = false ∨ a = "-" then .ok ([], a :: rest)
    else if a = "--" then .ok ([], rest)
    else if strStartsWith a "--" then
      .error ("option " ++ String.mk (a.toList.drop 2) ++ " not recognized")
    else
      match h2 : do_shorts (a.toList.drop 1) shortopts rest with
      | .error e => .error e
      | .ok (newopts, args2) =>
        match getoptGo shortopts args2 with
        | .error e => .error e
        | .ok (opts2, files) => .ok (newopts ++ opts2, files)
termination_by args.length
decreasing_by
  have := do_shorts_args_le _ _ _ _ _ h2
  simp only [List.length_cons]
  omega

/-- Model of `getopt.getopt(args, shortopts)` as the driver calls it. -/
def getopt (args : List String) (shortopts : String) :
    Except String (List Opt × List String) :=
  getoptGo shortopts.toList args

/-! ## The driver's module docstring (its usage text) -/

/-- The part of the driver's `__doc__` before the word `sample_gen`. -/
def docStringA : String :=
  "\nGenerating T-trees from dialogue acts.\n\nUsage: ./tgen.py <action> <argument1 ...>\n\nActions:\n\ncandgen_train -- train candidate generator (probability distributions)\n    - arguments: [-p prune_threshold] train-das train-ttrees output-model\n\npercrank_train -- train perceptron global ranker\n    - arguments: [-d debug-output] [-c candgen-model] [-s data-portion] [-j parallel-jobs] [-w parallel-work-dir] \\\n                 ranker-config train-das train-ttrees output-model\n\n"

/-- The part of the driver's `__doc__` after the word `sample_gen`. -/
def docStringB : String :=
  " -- generate using the given candidate generator\n    - arguments: [-n trees-per-da] [-o oracle-eval-ttrees] [-w output-ttrees] candgen-model test-das\n\nasearch_gen -- generate using the A*search sentence planner\n    - arguments: [-e eval-ttrees-file] [-s eval-ttrees-selector] [-d debug-output] [-w output-ttrees] [-c config] candgen-model percrank-model test-das\n"

/-- The driver's `__doc__` usage text, used as the `sys.exit` message. -/
def docString : String := docStringA ++ "sample_gen" ++ docStringB

/-! ## Effects and outcomes of a driver run -/

/-- Provenance of a model object held in memory: the candidate generator
or perceptron ranker loaded from a given file. -/
inductive ModelObj where
  | candgenFrom (fname : String)
  | percrankFrom (fname : String)
deriving Repr, DecidableEq

/-- One externally visible step of the driver (logging, model IO,
component construction, generation).  Formatted log lines whose payload
is computed data are represented by dedicated constructors. -/
inductive Effect where
  | seedRandom (n : Nat)
  | logRunningOn
  | logInfo (msg : String)
  | setDebugStream (fname : String)
  | mkCandgen (prune_threshold : Int)
  | trainCandgen (fnameDa fnameTrees : String)
  | saveCandgenModel (fname : String)
  | loadCandgenModel (fname : String)
  | loadConfig (fname : String)
  | mkRankerSerial (cfgFile : String) (candgenModel : Option String)
  | mkRankerParallel (cfgFile : String) (candgenModel : Option String)
      (jobs : Int) (workDir : String)
  | trainRanker (fnameDa fnameTrees : String) (dataPortion : ℚ)
  | saveRanker (fname : String)
  | loadPercrankModel (fname : String)
  | mkSamplingPlanner (candgen ranker : ModelObj)
  | mkASearchPlanner (candgen ranker : ModelObj) (cfgFile : Option String)
  | readDAs (fname : String)
  | readTTrees (fname : String)
  | sampleGenerate (n : Int)
  | oracleEvalReport (goldFile : String)
  | asearchGenerate
  | asearchEvalReport (evalFile selector : String)
  | writeOutput (fname : String)
deriving Repr, DecidableEq

/-- Result of running an action or the whole driver: the effect trace so
far, ending normally, in `sys.exit(msg)`, or in an uncaught exception. -/
inductive Outcome where
  | finished (tr : List Effect)
  | exited (tr : List Effect) (msg : String)
  | raised (tr : List Effect) (err : String)
deriving Repr, DecidableEq

/-- The effect trace of an outcome. -/
def Outcome.trace : Outcome → List Effect
  | .finished tr => tr
  | .exited tr _ => tr
  | .raised tr _ => tr

/-- Holds for effects that load, construct, train or save a model. -/
def Effect.touchesModel : Effect → Bool
  | .mkCandgen _ => true
  | .trainCandgen _ _ => true
  | .saveCandgenModel _ => true
  | .loadCandgenModel _ => true
  | .mkRankerSerial _ _ => true
  | .mkRankerParallel _ _ _ _ => true
  | .trainRanker _ _ _ => true
  | .saveRanker _ => true
  | .loadPercrankModel _ => true
  | .mkSamplingPlanner _ _ => true
  | .mkASearchPlanner _ _ _ => true
  | _ => false

/-- Holds for the model-file load effects. -/
def Effect.isModelLoad : Effect → Bool
  | .loadCandgenModel _ => true
  | .loadPercrankModel _ => true
  | _ => false

/-- The arguments of the `seedRandom` effects of a trace, in order. -/
def seedsOf (tr : List Effect) : List Nat :=
  tr.filterMap (fun e => match e with | .seedRandom n => some n | _ => none)

/-! ## Action `candgen_train` -/

/-- One iteration of the `for opt, arg in opts` loop of `candgen_train`:
a `-p` option re-assigns `prune_threshold` to `int(arg)`; `none` models a
`ValueError` raised by `int`. -/
def candgenStep (acc : Int) (p : Opt) : Option Int :=
  if p.1 = "-p" then pyInt p.2 else some acc

/-- The whole `for opt, arg in opts` loop of `candgen_train`:
`prune_threshold` starts at 1. -/
def candgenPrune (opts : List Opt) : Option Int :=
  opts.foldlM candgenStep 1

/-- The argument of the last `-p` option of a parsed option list, if any
(comparison definition: "the last assignment wins"), with an explicit
starting accumulator. -/
def lastPFrom (acc : Option String) (opts : List Opt) : Option String :=
  opts.foldl (fun a p => if p.1 = "-p" then some p.2 else a) acc

/-- The argument of the last `-p` option, if any. -/
def lastPArg (opts : List Opt) : Option String := lastPFrom none opts

/-- Embedding of `candgen_train(args)`. -/
def candgen_train (args : List String) : Outcome :=
  match getopt args "p:" with
  | .error e => .raised [] e
  | .ok (opts, files) =>
    match candgenPrune opts with
    | none => .raised [] "ValueError: invalid literal for int()"
    | some pt =>
      match files with
      | [fda, ftt, fmodel] =>
        .finished [.logInfo "Training candidate generator...",
                   .mkCandgen pt, .trainCandgen fda ftt, .saveCandgenModel fmodel]
      | _ => .exited [] docString

/-! ## Action `percrank_train` -/

/-- The local variables of `percrank_train` set by its option loop
(initial values as assigned on lines 68-72 of the driver). -/
structure PercrankParams where
  candgen_model : Option String
  train_size : ℚ
  parallel : Bool
  jobs_number : Int
  work_dir : Option String
deriving Repr, DecidableEq

/-- Initial `percrank_train` locals. -/
def percrankInit : PercrankParams := ⟨none, 1, false, 0, none⟩

/-- The `for opt, arg in opts` loop of `percrank_train`; `-d` opens a
debug stream (an effect), `-s`/`-j` parse numbers and may raise
`ValueError` (result `none`, keeping the effects performed so far). -/
def percrankLoop (opts : List Opt) (ps : PercrankParams) (tr : List Effect) :
    List Effect × Option PercrankParams :=
  match opts with
  | [] => (tr, some ps)
  | (o, a) :: rest =>
    if o = "-d" then percrankLoop rest ps (tr ++ [.setDebugStream a])
    else if o = "-s" then
      match pyFloat a with
      | none => (tr, none)
      | some v => percrankLoop rest { ps with train_size := v } tr
    else if o = "-c" then percrankLoop rest { ps with candgen_model := some a } tr
    else if o = "-j" then
      match pyInt a with
      | none => (tr, none)
      | some v => percrankLoop rest { ps with parallel := true, jobs_number := v } tr
    else if o = "-w" then percrankLoop rest { ps with work_dir := some a } tr
    else percrankLoop rest ps tr

/-- Model of `os.path.split(p)[0]` (POSIX): everything before the last
slash, with trailing slashes stripped unless the head is all slashes. -/
def osPathSplitHead (p : String) : String :=
  let cs := p.toList
  let tail := cs.reverse.takeWhile (· ≠ '/')
  let head := cs.take (cs.length - tail.length)
  if ¬ head.isEmpty ∧ head.any (· ≠ '/') then
    String.mk ((head.reverse.dropWhile (· = '/')).reverse)
  else String.mk head

/-- Embedding of `percrank_train(args)`. -/
def percrank_train (args : List String) : Outcome :=
  match getopt args "c:d:s:j:w:" with
  | .error e => .raised [] e
  | .ok (opts, files) =>
    match percrankLoop opts percrankInit [] with
    | (tr, none) => .raised tr "ValueError"
    | (tr, some ps) =>
      match files with
      | [fcfg, fda, ftt, fmodel] =>
        .finished (tr ++
          [.logInfo "Training perceptron ranker...", .loadConfig fcfg] ++
          (if ¬ ps.parallel then [.mkRankerSerial fcfg ps.candgen_model]
           else
             [.mkRankerParallel fcfg ps.candgen_model ps.jobs_number
                (ps.work_dir.getD (osPathSplitHead fcfg))]) ++
          [.trainRanker fda ftt ps.train_size, .saveRanker fmodel])
      | _ => .exited tr docString

/-! ## Action `sample_gen` -/

/-- The local variables of `sample_gen` set by its option loop
(initial values as assigned on lines 109-111 of the driver). -/
structure SampleGenParams where
  num_to_generate : Int
  oracle_eval_file : Option String
  fname_ttrees_out : Option String
deriving Repr, DecidableEq

/-- Initial `sample_gen` locals. -/
def sampleGenInit : SampleGenParams := ⟨1, none, none⟩

/-- One iteration of the `for opt, arg in opts` loop of `sample_gen`:
only `-n`, `-o` and `-w` have handlers; any other parsed option (in
particular `-r`) falls through without effect. -/
def sampleGenStep (ps : SampleGenParams) (p : Opt) : Option SampleGenParams :=
  if p.1 = "-n" then (pyInt p.2).map (fun v => { ps with num_to_generate := v })
  else if p.1 = "-o" then some { ps with oracle_eval_file := some p.2 }
  else if p.1 = "-w" then some { ps with fname_ttrees_out := some p.2 }
  else some ps

/-- The whole `for opt, arg in opts` loop of `sample_gen`. -/
def sampleGenFold (opts : List Opt) : Option SampleGenParams :=
  opts.foldlM sampleGenStep sampleGenInit

/-- Embedding of `sample_gen(args)`. -/
def sample_gen (args : List String) : Outcome :=
  match getopt args "r:n:o:w:" with
  | .error e => .raised [] e
  | .ok (opts, files) =>
    match sampleGenFold opts with
    | none => .raised [] "ValueError: invalid literal for int()"
    | some ps =>
      match files with
      | [fcm, fdt] =>
        .finished
          ([.logInfo "Initializing...",
            .loadCandgenModel fcm,
            .mkSamplingPlanner (.candgenFrom fcm) (.candgenFrom fcm),
            .logInfo "Generating...",
            .readDAs fdt,
            .sampleGenerate ps.num_to_generate] ++
           (match ps.oracle_eval_file with
            | some f => [.logInfo "Evaluating oracle F1...",
                         .logInfo ("Loading gold data from " ++ f),
                         .readTTrees f,
                         .logInfo "Gold data loaded.",
                         .oracleEvalReport f]
            | none => []) ++
           (match ps.fname_ttrees_out with
            | some f => [.logInfo "Writing output...", .writeOutput f]
            | none => []))
      | _ => .exited [] docString

/-! ## Action `asearch_gen` -/

/-- The local variables of `asearch_gen` set by its option loop
(initial values as assigned on lines 171-174 of the driver). -/
structure ASearchParams where
  eval_file : Option String
  fname_ttrees_out : Option String
  cfg_file : Option String
  eval_selector : String
deriving Repr, DecidableEq

/-- Initial `asearch_gen` locals. -/
def asearchInit : ASearchParams := ⟨none, none, none, ""⟩

/-- The `for opt, arg in opts` loop of `asearch_gen` (all five branches
of the source, including the `-s` branch, are embedded; `-d` opens a
debug stream). -/
def asearchLoop (opts : List Opt) (ps : ASearchParams) (tr : List Effect) :
    List Effect × ASearchParams :=
  match opts with
  | [] => (tr, ps)
  | (o, a) :: rest =>
    if o = "-e" then asearchLoop rest { ps with eval_file := some a } tr
    else if o = "-s" then asearchLoop rest { ps with eval_selector := a } tr
    else if o = "-d" then asearchLoop rest ps (tr ++ [.setDebugStream a])
    else if o = "-w" then asearchLoop rest { ps with fname_ttrees_out := some a } tr
    else if o = "-c" then asearchLoop rest { ps with cfg_file := some a } tr
    else asearchLoop rest ps tr

/-- Embedding of `asearch_gen(args)`. -/
def asearch_gen (args : List String) : Outcome :=
  match getopt args "e:d:w:c:" with
  | .error e => .raised [] e
  | .ok (opts, files) =>
    match asearchLoop opts asearchInit [] with
    | (tr, ps) =>
      match files with
      | [fcm, frm, fdt] =>
        .finished (tr ++
          [.logInfo "Initializing...",
           .loadCandgenModel fcm,
           .loadPercrankModel frm] ++
          (match ps.cfg_file with
           | some f => [.loadConfig f]
           | none => []) ++
          [.mkASearchPlanner (.candgenFrom fcm) (.percrankFrom frm) ps.cfg_file,
           .logInfo "Generating...",
           .readDAs fdt] ++
          (match ps.eval_file with
           | some f => [.readTTrees f, .asearchEvalReport f ps.eval_selector]
           | none => [.asearchGenerate]) ++
          (match ps.fname_ttrees_out with
           | some f => [.logInfo "Writing output...", .writeOutput f]
           | none => []))
      | _ => .exited tr ("Invalid arguments.\n" ++ docString)

/-! ## The `__main__` block -/

/-- Wrap an action's outcome with the effects `__main__` performs before
dispatching, and with the final `Done.` log line on normal completion. -/
def mainWrap (pre : List Effect) (o : Outcome) : Outcome :=
  match o with
  | .finished tr => .finished (pre ++ tr ++ [.logInfo "Done."])
  | .exited tr m => .exited (pre ++ tr) m
  | .raised tr e => .raised (pre ++ tr) e

/-- The `sys.exit` message for an unrecognized action name. -/
def unknownActionMsg (action : String) : String :=
  "\nERROR: Unknown Tgen action: " ++ action ++ "\n\n---" ++ docString

/-- Embedding of the driver's `__main__` block: seed the process RNG with
1206, check the argument count, then dispatch on the action name. -/
def tgenMain (argv : List String) : Outcome :=
  if argv.length < 3 then .exited [.seedRandom 1206] docString
  else
    let action := argv.getD 1 ""
    let args := argv.drop 2
    let pre := [Effect.seedRandom 1206, Effect.logRunningOn]
    if action = "candgen_train" then mainWrap pre (candgen_train args)
    else if action = "percrank_train" then mainWrap pre (percrank_train args)
    else if action = "random_gen" then mainWrap pre (sample_gen args)
    else if action = "asearch_gen" then mainWrap pre (asearch_gen args)
    else .exited pre (unknownActionMsg action)

/-! ## The generation loop of `sample_gen` (lines 135-139)

`tgen.generate_tree(da, gen_doc)` appends one sampled tree to the output
document and advances the sampler's internal state; it is a collaborator,
supplied here as a function `generate : δ → σ → τ × σ` from a dialogue
act and a planner state to the produced tree and the next state. -/

/-- The inner `for _ in xrange(num_to_generate)` loop: generate `n` trees
for one dialogue act, appending each to the document. -/
def repeatGen {δ τ σ : Type} (generate : δ → σ → τ × σ) (da : δ) :
    Nat → List τ → σ → List τ × σ
  | 0, doc, st => (doc, st)
  | k + 1, doc, st =>
    let (t, st2) := generate da st
    repeatGen generate da k (doc ++ [t]) st2

/-- The outer `for da in das` loop of `sample_gen`'s generation phase. -/
def sampleGenLoop {δ τ σ : Type} (generate : δ → σ → τ × σ) (n : Nat) :
    List δ → List τ → σ → List τ × σ
  | [], doc, st => (doc, st)
  | da :: rest, doc, st =>
    let (doc2, st2) := repeatGen generate da n doc st
    sampleGenLoop generate n rest doc2 st2

/-- Comparison definition following the spec's words: the `n` samples of
one dialogue act as their own group. -/
def sampleGroup {δ τ σ : Type} (generate : δ → σ → τ × σ) (da : δ) :
    Nat → σ → List τ × σ
  | 0, st => ([], st)
  | k + 1, st =>
    let (t, st2) := generate da st
    let (ts, st3) := sampleGroup generate da k st2
    (t :: ts, st3)

/-- Comparison definition following the spec's words: one group of `n`
samples per dialogue act, groups listed in input order. -/
def sampleGroups {δ τ σ : Type} (generate : δ → σ → τ × σ) (n : Nat) :
    List δ → σ → List (List τ) × σ
  | [], st => ([], st)
  | da :: rest, st =>
    let (g, st2) := sampleGroup generate da n st
    let (gs, st3) := sampleGroups generate n rest st2
    (g :: gs, st3)

/-! ## Evaluation helpers (`tgen.eval`, `tgen.futil`)

These live in the wider repository, outside the driver file; they are
modelled from the specification. -/

/-- Modelled from the spec: `p_r_f1_from_counts` precision component,
`correct/predicted`, defined as 0 when the denominator is 0
(`tgen.eval` is outside the driver source). -/
def precision_from_counts (c p : Nat) : ℚ :=
  if p = 0 then 0 else (c : ℚ) / (p : ℚ)

/-- Modelled from the spec: `p_r_f1_from_counts` recall component,
`correct/gold`, defined as 0 when the denominator is 0. -/
def recall_from_counts (c g : Nat) : ℚ :=
  if g = 0 then 0 else (c : ℚ) / (g : ℚ)

/-- Modelled from the spec: `f1_from_counts` of `tgen.eval` — the
harmonic mean of precision and recall, 0 when the relevant denominator
is 0. -/
def f1_from_counts (c p g : Nat) : ℚ :=
  let pr := precision_from_counts c p
  let rc := recall_from_counts c g
  if pr + rc = 0 then 0 else 2 * pr * rc / (pr + rc)

/-- Modelled from the spec: `p_r_f1_from_counts` of `tgen.eval` —
precision, recall and F1 computed once from the given counts. -/
def p_r_f1_from_counts (c p g : Nat) : ℚ × ℚ × ℚ :=
  (precision_from_counts c p, recall_from_counts c g, f1_from_counts c p g)

/-- Modelled from the spec: `chunk_list` of `tgen.futil` — split a list
into consecutive chunks of size `n` (the per-dialogue-act groups of the
produced interface).  `tgen.futil` is outside the driver source. -/
def chunk_list {τ : Type} (l : List τ) (n : Nat) : List (List τ) :=
  if h : n = 0 then []
  else
    match l with
    | [] => []
    | x :: xs => ((x :: xs).take n) :: chunk_list ((x :: xs).drop n) n
termination_by l.length
decreasing_by
  simp only [List.length_drop, List.length_cons]
  omega

/-- Model of Python `max(l, key)` on a non-empty list: the first element
whose key is maximal (later elements replace the current best only when
strictly greater). -/
def pyMaxBy {β : Type} (key : β → ℚ) : List β → Option β
  | [] => none
  | x :: xs => some (xs.foldl (fun b y => if key b < key y then y else b) x)

/-! ## The oracle evaluation of `sample_gen` (lines 148-159) -/

/-- The list comprehension of lines 151-153: for each generated tree of
one dialogue act's group, the tuple `(f1, correct, predicted, gold)` of
its counts against the gold tree.  `cpg` is the collaborator
`corr_pred_gold` of `tgen.eval`, supplied as a parameter. -/
def oracleCandidates {τ : Type} (cpg : τ → τ → Nat × Nat × Nat) (gold : τ)
    (gen_trees : List τ) : List (ℚ × Nat × Nat × Nat) :=
  gen_trees.map (fun t =>
    (f1_from_counts (cpg gold t).1 (cpg gold t).2.1 (cpg gold t).2.2,
     (cpg gold t).1, (cpg gold t).2.1, (cpg gold t).2.2))

/-- The `max(..., key=lambda x: x[0])` call of lines 151-154: best
sample of one group by its own F1.  `none` models the `ValueError`
Python's `max` raises on an empty sequence. -/
def oracleBest {τ : Type} (cpg : τ → τ → Nat × Nat × Nat) (gold : τ)
    (gen_trees : List τ) : Option (ℚ × Nat × Nat × Nat) :=
  pyMaxBy (fun x => x.1) (oracleCandidates cpg gold gen_trees)

/-- The accumulation loop of lines 148-157: corpus-level `correct`,
`predicted` and `gold` counters summed over the per-dialogue-act best
samples. -/
def oracleTotals {τ : Type} (cpg : τ → τ → Nat × Nat × Nat) (n : Nat)
    (gold_trees gen_trees : List τ) : Option (Nat × Nat × Nat) :=
  (gold_trees.zip (chunk_list gen_trees n)).foldlM
    (fun acc pr =>
      (oracleBest cpg pr.1 pr.2).map
        (fun b => (acc.1 + b.2.1, acc.2.1 + b.2.2.1, acc.2.2 + b.2.2.2)))
    (0, 0, 0)

/-- Line 159: the reported oracle precision/recall/F1, computed once
from the summed counts. -/
def oracleReport {τ : Type} (cpg : τ → τ → Nat × Nat × Nat) (n : Nat)
    (gold_trees gen_trees : List τ) : Option (ℚ × ℚ × ℚ) :=
  (oracleTotals cpg n gold_trees gen_trees).map
    (fun t => p_r_f1_from_counts t.1 t.2.1 t.2.2)

/-- Componentwise sum of two count triples. -/
def addCounts (a b : Nat × Nat × Nat) : Nat × Nat × Nat :=
  (a.1 + b.1, a.2.1 + b.2.1, a.2.2 + b.2.2)

/-- Componentwise sum of count triples (comparison definition for the
micro-averaging statement). -/
def sumCounts (l : List (Nat × Nat × Nat)) : Nat × Nat × Nat :=
  l.foldl addCounts (0, 0, 0)

/-- The count triple of the best sample of one group (0s standing in for
the empty-group case, in which the driver would raise). -/
def oracleBestCounts {τ : Type} (cpg : τ → τ → Nat × Nat × Nat) (gold : τ)
    (gen_trees : List τ) : Nat × Nat × Nat :=
  match oracleBest cpg gold gen_trees with
  | some b => (b.2.1, b.2.2.1, b.2.2.2)
  | none => (0, 0, 0)

/-- Comparison definition following the spec's words: the per-dialogue-act
best-sample counts, one triple per `(gold, group)` pair. -/
def oracleBestsSpec {τ : Type} (cpg : τ → τ → Nat × Nat × Nat) (n : Nat)
    (gold_trees gen_trees : List τ) : List (Nat × Nat × Nat) :=
  (gold_trees.zip (chunk_list gen_trees n)).map (fun pr =>
    oracleBestCounts cpg pr.1 pr.2)

/-! ## The evaluation loop of `asearch_gen` (lines 213-221)

`tgen.generate_tree(da, gen_doc, return_lists=True)` returns the open and
close lists of the A* search and appends the produced tree to the
document; it is a collaborator supplied as a function from a dialogue act
and a planner-plus-document state to `((open_list, close_list), state)`. -/

/-- One analyzer entry: the gold tree together with the open and close
lists recorded for it (`ASearchListsAnalyzer.append` arguments). -/
abbrev AnalyzerEntry (τ : Type) : Type := τ × List τ × List τ

/-- The `for num, (da, gold_tree) in enumerate(...)` loop of lines
216-220: entries are appended to the analyzer in input order. -/
def asearchEvalLoop {δ τ σ : Type} (gen : δ → σ → (List τ × List τ) × σ) :
    List (δ × τ) → List (AnalyzerEntry τ) → σ → List (AnalyzerEntry τ) × σ
  | [], acc, st => (acc, st)
  | (da, gold) :: rest, acc, st =>
    let (ls, st2) := gen da st
    asearchEvalLoop gen rest (acc ++ [(gold, ls.1, ls.2)]) st2

/-- Comparison definition following the spec's words: the analyzer entries
listed structurally, pair by pair in input order. -/
def asearchEntriesSpec {δ τ σ : Type} (gen : δ → σ → (List τ × List τ) × σ) :
    List (δ × τ) → σ → List (AnalyzerEntry τ) × σ
  | [], st => ([], st)
  | (da, gold) :: rest, st =>
    let (ls, st2) := gen da st
    let (es, st3) := asearchEntriesSpec gen rest st2
    ((gold, ls.1, ls.2) :: es, st3)

/-- Modelled from the spec: `ASearchListsAnalyzer.stats()` of `tgen.eval`
(outside the driver source) — the three aggregate rates over all recorded
entries: gold ranked best on the close list, gold anywhere on the close
list, gold anywhere on either list. -/
def analyzerStats {τ : Type} [DecidableEq τ] (entries : List (AnalyzerEntry τ)) :
    ℚ × ℚ × ℚ :=
  let n : ℚ := (entries.length : ℚ)
  (((entries.filter (fun e => e.2.2.head? = some e.1)).length : ℚ) / n,
   ((entries.filter (fun e => decide (e.1 ∈ e.2.2))).length : ℚ) / n,
   ((entries.filter (fun e => decide (e.1 ∈ e.2.1 ∨ e.1 ∈ e.2.2))).length : ℚ) / n)

/-- Lines 213-221 as a whole: run the evaluation loop over the zipped
dialogue acts and gold trees, then report `lists_analyzer.stats()` once. -/
def asearchEvalPhase {δ τ σ : Type} [DecidableEq τ]
    (gen : δ → σ → (List τ × List τ) × σ) (das : List δ) (golds : List τ)
    (st : σ) : List (AnalyzerEntry τ) × σ × (ℚ × ℚ × ℚ) :=
  let (entries, st2) := asearchEvalLoop gen (das.zip golds) [] st
  (entries, st2, analyzerStats entries)

/-! # Theorems -/

/-! ## C2: the generation loop of `sample_gen` -/

theorem repeatGen_eq {δ τ σ : Type} (generate : δ → σ → τ × σ) (da : δ) :
    ∀ (n : Nat) (doc : List τ) (st : σ),
      repeatGen generate da n doc st =
        (doc ++ (sampleGroup generate da n st).1, (sampleGroup generate da n st).2)
  | 0, doc, st => by simp [repeatGen, sampleGroup]
  | n + 1, doc, st => by
    rcases hg : generate da st with ⟨t, st2⟩
    rcases hs : sampleGroup generate da n st2 with ⟨ts, st3⟩
    simp only [repeatGen, sampleGroup, hg, hs]
    rw [repeatGen_eq generate da n (doc ++ [t]) st2, hs]
    simp

theorem sampleGenLoop_eq {δ τ σ : Type} (generate : δ → σ → τ × σ) (n : Nat) :
    ∀ (das : List δ) (doc : List τ) (st : σ),
      sampleGenLoop generate n das doc st =
        (doc ++ (sampleGroups generate n das st).1.flatten,
         (sampleGroups generate n das st).2)
  | [], doc, st => by simp [sampleGenLoop, sampleGroups]
  | da :: rest, doc, st => by
    rcases hg : sampleGroup generate da n st with ⟨g, st2⟩
    rcases hr : sampleGroups generate n rest st2 with ⟨gs, st3⟩
    simp only [sampleGenLoop, sampleGroups, hg, hr]
    rw [repeatGen_eq generate da n doc st, hg]
    rw [sampleGenLoop_eq generate n rest (doc ++ g) st2, hr]
    simp

theorem sampleGroup_length {δ τ σ : Type} (generate : δ → σ → τ × σ) (da : δ) :
    ∀ (n : Nat) (st : σ), (sampleGroup generate da n st).1.length = n
  | 0, st => by simp [sampleGroup]
  | n + 1, st => by
    rcases hg : generate da st with ⟨t, st2⟩
    rcases hs : sampleGroup generate da n st2 with ⟨ts, st3⟩
    have := sampleGroup_length generate da n st2
    rw [hs] at this
    simp only [sampleGroup, hg, hs]
    simp at this ⊢
    exact this

theorem sampleGroups_length {δ τ σ : Type} (generate : δ → σ → τ × σ) (n : Nat) :
    ∀ (das : List δ) (st : σ),
      (sampleGroups generate n das st).1.length = das.length
  | [], st => by simp [sampleGroups]
  | da :: rest, st => by
    rcases hg : sampleGroup generate da n st with ⟨g, st2⟩
    rcases hr : sampleGroups generate n rest st2 with ⟨gs, st3⟩
    have := sampleGroups_length generate n rest st2
    rw [hr] at this
    simp only [sampleGroups, hg, hr]
    simp at this ⊢
    exact this

theorem sampleGroups_each_length {δ τ σ : Type} (generate : δ → σ → τ × σ)
    (n : Nat) :
    ∀ (das : List δ) (st : σ),
      ∀ g ∈ (sampleGroups generate n das st).1, g.length = n
  | [], st => by simp [sampleGroups]
  | da :: rest, st => by
    rcases hg : sampleGroup generate da n st with ⟨g0, st2⟩
    rcases hr : sampleGroups generate n rest st2 with ⟨gs, st3⟩
    intro g hgmem
    simp only [sampleGroups, hg, hr] at hgmem
    simp at hgmem
    rcases hgmem with h | h
    · subst h
      have := sampleGroup_length generate da n st
      rw [hg] at this
      exact this
    · have := sampleGroups_each_length generate n rest st2 g
      rw [hr] at this
      exact this h

/-- C2: for every input sequence of dialogue acts and every
`N = num_to_generate`, the generation loop of `sample_gen` produces
exactly `N` trees per dialogue act, appended consecutively to the output
document, with the per-dialogue-act groups in the same order as the
input dialogue acts (the document equals the concatenation of the
per-act groups, each group of length `N`, one group per act). -/
theorem sample_gen_output_n_per_act_in_order {δ τ σ : Type}
    (generate : δ → σ → τ × σ) (n : Nat) (das : List δ) (st : σ) :
    (sampleGenLoop generate n das [] st).1 =
      (sampleGroups generate n das st).1.flatten ∧
    (sampleGroups generate n das st).1.length = das.length ∧
    (∀ g ∈ (sampleGroups generate n das st).1, g.length = n) ∧
    (sampleGenLoop generate n das [] st).2 = (sampleGroups generate n das st).2 := by
  refine ⟨?_, sampleGroups_length generate n das st,
    sampleGroups_each_length generate n das st, ?_⟩
  · rw [sampleGenLoop_eq]
    simp
  · rw [sampleGenLoop_eq]

/-! ## C7: the evaluation loop of `asearch_gen` -/

theorem asearchEvalLoop_eq {δ τ σ : Type} (gen : δ → σ → (List τ × List τ) × σ) :
    ∀ (pairs : List (δ × τ)) (acc : List (AnalyzerEntry τ)) (st : σ),
      asearchEvalLoop gen pairs acc st =
        (acc ++ (asearchEntriesSpec gen pairs st).1,
         (asearchEntriesSpec gen pairs st).2)
  | [], acc, st => by simp [asearchEvalLoop, asearchEntriesSpec]
  | (da, gold) :: rest, acc, st => by
    rcases hg : gen da st with ⟨ls, st2⟩
    rcases hr : asearchEntriesSpec gen rest st2 with ⟨es, st3⟩
    simp only [asearchEvalLoop, asearchEntriesSpec, hg, hr]
    rw [asearchEvalLoop_eq gen rest (acc ++ [(gold, ls.1, ls.2)]) st2, hr]
    simp

theorem asearchEntriesSpec_golds {δ τ σ : Type}
    (gen : δ → σ → (List τ × List τ) × σ) :
    ∀ (pairs : List (δ × τ)) (st : σ),
      ((asearchEntriesSpec gen pairs st).1).map (fun e => e.1) =
        pairs.map (fun p => p.2)
  | [], st => by simp [asearchEntriesSpec]
  | (da, gold) :: rest, st => by
    rcases hg : gen da st with ⟨ls, st2⟩
    rcases hr : asearchEntriesSpec gen rest st2 with ⟨es, st3⟩
    have := asearchEntriesSpec_golds gen rest st2
    rw [hr] at this
    simp only [asearchEntriesSpec, hg, hr]
    simp at this ⊢
    exact this

/-- C7: with an evaluation file, `asearch_gen` walks the
`(DialogueAct, gold tree)` pairs in input order, appends for each one the
gold tree with the open and close lists returned by `generate_tree` to
the lists analyzer, and after the loop reports exactly the three
aggregate statistics of `ASearchListsAnalyzer.stats` (gold best on the
close list, gold on the close list, gold on either list) computed over
all recorded entries. -/
theorem asearch_eval_appends_in_order_and_reports_stats {δ τ σ : Type}
    [DecidableEq τ] (gen : δ → σ → (List τ × List τ) × σ) (das : List δ)
    (golds : List τ) (st : σ) :
    (asearchEvalPhase gen das golds st).1 =
      (asearchEntriesSpec gen (das.zip golds) st).1 ∧
    ((asearchEvalPhase gen das golds st).1).map (fun e => e.1) =
      (das.zip golds).map (fun p => p.2) ∧
    (asearchEvalPhase gen das golds st).2.2 =
      analyzerStats (asearchEvalPhase gen das golds st).1 := by
  rcases hr : asearchEntriesSpec gen (das.zip golds) st with ⟨es, st3⟩
  have hloop := asearchEvalLoop_eq gen (das.zip golds) [] st
  rw [hr] at hloop
  have hg := asearchEntriesSpec_golds gen (das.zip golds) st
  rw [hr] at hg
  simp only [asearchEvalPhase, hloop]
  simp [hg]

/-! ## C1: oracle evaluation of `sample_gen` -/

theorem pyMaxBy_foldl_mem {β : Type} (key : β → ℚ) :
    ∀ (xs : List β) (x : β),
      xs.foldl (fun b y => if key b < key y then y else b) x ∈ x :: xs
  | [], x => by simp
  | y :: ys, x => by
    simp only [List.foldl_cons]
    have := pyMaxBy_foldl_mem key ys (if key x < key y then y else x)
    rcases List.mem_cons.mp this with h | h
    · rw [h]
      split <;> simp
    · simp [List.mem_cons.mpr (Or.inr h)]

theorem pyMaxBy_foldl_ge {β : Type} (key : β → ℚ) :
    ∀ (xs : List β) (x : β), ∀ z ∈ x :: xs,
      key z ≤ key (xs.foldl (fun b y => if key b < key y then y else b) x)
  | [], x, z, hz => by
    simp at hz
    simp [hz]
  | y :: ys, x, z, hz => by
    simp only [List.foldl_cons]
    have hx : key x ≤ key (if key x < key y then y else x) := by
      split
      · next h => exact le_of_lt h
      · exact le_refl _
    have hy : key y ≤ key (if key x < key y then y else x) := by
      split
      · exact le_refl _
      · next h => exact not_lt.mp h
    rcases List.mem_cons.mp hz with h | h
    · subst h
      exact le_trans hx
        (pyMaxBy_foldl_ge key ys _ _ (List.mem_cons_self _ _))
    · rcases List.mem_cons.mp h with h2 | h2
      · subst h2
        exact le_trans hy
          (pyMaxBy_foldl_ge key ys _ _ (List.mem_cons_self _ _))
      · exact pyMaxBy_foldl_ge key ys _ z (List.mem_cons_of_mem _ h2)

theorem pyMaxBy_mem {β : Type} (key : β → ℚ) (l : List β) (m : β)
    (h : pyMaxBy key l = some m) : m ∈ l := by
  cases l with
  | nil => simp [pyMaxBy] at h
  | cons x xs =>
    simp only [pyMaxBy, Option.some.injEq] at h
    rw [← h]
    exact pyMaxBy_foldl_mem key xs x

theorem pyMaxBy_ge {β : Type} (key : β → ℚ) (l : List β) (m : β)
    (h : pyMaxBy key l = some m) : ∀ z ∈ l, key z ≤ key m := by
  cases l with
  | nil => simp
  | cons x xs =>
    simp only [pyMaxBy, Option.some.injEq] at h
    intro z hz
    rw [← h]
    exact pyMaxBy_foldl_ge key xs x z hz

theorem chunk_list_ne_nil_aux {τ : Type} (n : Nat) (hn : 1 ≤ n) :
    ∀ (k : Nat) (l : List τ), l.length ≤ k → ∀ c ∈ chunk_list l n, c ≠ [] := by
  intro k
  induction k with
  | zero =>
    intro l hl c hc
    have : l = [] := List.eq_nil_of_length_eq_zero (Nat.le_zero.mp hl)
    subst this
    unfold chunk_list at hc
    rw [dif_neg (by omega : ¬ n = 0)] at hc
    simp at hc
  | succ k ih =>
    intro l hl c hc
    unfold chunk_list at hc
    rw [dif_neg (by omega : ¬ n = 0)] at hc
    cases l with
    | nil => simp at hc
    | cons x xs =>
      rcases List.mem_cons.mp hc with h | h
      · subst h
        cases n with
        | zero => omega
        | succ m => simp
      · refine ih ((x :: xs).drop n) ?_ c h
        simp only [List.length_drop, List.length_cons]
        simp only [List.length_cons] at hl
        omega

theorem chunk_list_ne_nil {τ : Type} (n : Nat) (hn : 1 ≤ n) (l : List τ) :
    ∀ c ∈ chunk_list l n, c ≠ [] :=
  chunk_list_ne_nil_aux n hn l.length l (le_refl _)

theorem oracleBest_isSome_of_ne_nil {τ : Type} (cpg : τ → τ → Nat × Nat × Nat)
    (gold : τ) (gen_trees : List τ) (h : gen_trees ≠ []) :
    ∃ b, oracleBest cpg gold gen_trees = some b := by
  cases gen_trees with
  | nil => exact absurd rfl h
  | cons t ts => exact ⟨_, rfl⟩

theorem addCounts_zero_right (a : Nat × Nat × Nat) : addCounts a (0, 0, 0) = a := by
  simp [addCounts]

theorem addCounts_zero_left (a : Nat × Nat × Nat) : addCounts (0, 0, 0) a = a := by
  simp [addCounts]

theorem addCounts_assoc (a b c : Nat × Nat × Nat) :
    addCounts (addCounts a b) c = addCounts a (addCounts b c) := by
  simp [addCounts]
  omega

theorem sumCounts_shift :
    ∀ (l : List (Nat × Nat × Nat)) (acc : Nat × Nat × Nat),
      l.foldl addCounts acc = addCounts acc (sumCounts l)
  | [], acc => by
    simp only [List.foldl_nil, sumCounts, addCounts_zero_right]
  | b :: rest, acc => by
    simp only [List.foldl_cons]
    rw [sumCounts_shift rest (addCounts acc b)]
    have h2 : sumCounts (b :: rest) = addCounts b (sumCounts rest) := by
      simp only [sumCounts, List.foldl_cons]
      rw [sumCounts_shift rest (addCounts (0, 0, 0) b), addCounts_zero_left]
      rfl
    rw [h2, addCounts_assoc]

theorem sumCounts_cons (b : Nat × Nat × Nat) (l : List (Nat × Nat × Nat)) :
    sumCounts (b :: l) = addCounts b (sumCounts l) := by
  simp only [sumCounts, List.foldl_cons]
  rw [sumCounts_shift l (addCounts (0, 0, 0) b), addCounts_zero_left]
  rfl

theorem oracleFold_eq {τ : Type} (cpg : τ → τ → Nat × Nat × Nat) :
    ∀ (pairs : List (τ × List τ)), (∀ pr ∈ pairs, pr.2 ≠ []) →
      ∀ acc : Nat × Nat × Nat,
        pairs.foldlM (fun acc pr =>
            (oracleBest cpg pr.1 pr.2).map
              (fun b => (acc.1 + b.2.1, acc.2.1 + b.2.2.1, acc.2.2 + b.2.2.2)))
          acc =
        some (addCounts acc
          (sumCounts (pairs.map (fun pr => oracleBestCounts cpg pr.1 pr.2))))
  | [], _, acc => by
    simp only [List.foldlM_nil, List.map_nil, sumCounts, List.foldl_nil,
               addCounts_zero_right]
    rfl
  | pr :: rest, hne, acc => by
    obtain ⟨b, hb⟩ :=
      oracleBest_isSome_of_ne_nil cpg pr.1 pr.2 (hne pr (List.mem_cons_self _ _))
    have hstep :
        (oracleBest cpg pr.1 pr.2).map
            (fun b => (acc.1 + b.2.1, acc.2.1 + b.2.2.1, acc.2.2 + b.2.2.2)) =
          some (addCounts acc (oracleBestCounts cpg pr.1 pr.2)) := by
      rw [hb]
      simp [oracleBestCounts, hb, addCounts]
    simp only [List.foldlM_cons, hstep, Option.bind_eq_bind, Option.some_bind]
    rw [oracleFold_eq cpg rest (fun q hq => hne q (List.mem_cons_of_mem _ hq))
          (addCounts acc (oracleBestCounts cpg pr.1 pr.2))]
    rw [List.map_cons, sumCounts_cons, ← addCounts_assoc]

/-- C1: for every dialogue act with its group of `N` generated samples,
the oracle evaluation of `sample_gen` selects the sample maximizing its
own F1 against the gold tree (by `max` over `f1_from_counts` of
`corr_pred_gold`), adds exactly that sample's `(correct, predicted,
gold)` counts to the corpus-level accumulators, and reports the final
precision/recall/F1 computed once from the summed counts
(micro-averaging). -/
theorem oracle_eval_best_of_n_micro {τ : Type} (cpg : τ → τ → Nat × Nat × Nat)
    (n : Nat) (golds gens : List τ) (hn : 1 ≤ n) :
    oracleReport cpg n golds gens =
      some (p_r_f1_from_counts
        (sumCounts (oracleBestsSpec cpg n golds gens)).1
        (sumCounts (oracleBestsSpec cpg n golds gens)).2.1
        (sumCounts (oracleBestsSpec cpg n golds gens)).2.2) ∧
    ∀ pr ∈ golds.zip (chunk_list gens n),
      ∃ t ∈ pr.2,
        oracleBestCounts cpg pr.1 pr.2 = cpg pr.1 t ∧
        ∀ u ∈ pr.2,
          f1_from_counts (cpg pr.1 u).1 (cpg pr.1 u).2.1 (cpg pr.1 u).2.2 ≤
            f1_from_counts (cpg pr.1 t).1 (cpg pr.1 t).2.1 (cpg pr.1 t).2.2 := by
  have hne : ∀ pr ∈ golds.zip (chunk_list gens n), pr.2 ≠ [] := by
    intro pr hpr
    obtain ⟨x, y⟩ := pr
    have := (List.of_mem_zip hpr).2
    exact chunk_list_ne_nil n hn gens y this
  constructor
  · have htot : oracleTotals cpg n golds gens =
        some (sumCounts (oracleBestsSpec cpg n golds gens)) := by
      unfold oracleTotals
      rw [oracleFold_eq cpg (golds.zip (chunk_list gens n)) hne (0, 0, 0)]
      rw [addCounts_zero_left]
      rfl
    unfold oracleReport
    rw [htot]
    rfl
  · intro pr hpr
    obtain ⟨b, hb⟩ := oracleBest_isSome_of_ne_nil cpg pr.1 pr.2 (hne pr hpr)
    have hbmem := pyMaxBy_mem _ _ _ hb
    obtain ⟨t, ht, hbt⟩ := List.mem_map.mp hbmem
    refine ⟨t, ht, ?_, ?_⟩
    · rw [oracleBestCounts, hb, ← hbt]
    · intro u hu
      have hcand :
          (f1_from_counts (cpg pr.1 u).1 (cpg pr.1 u).2.1 (cpg pr.1 u).2.2,
           (cpg pr.1 u).1, (cpg pr.1 u).2.1, (cpg pr.1 u).2.2) ∈
            oracleCandidates cpg pr.1 pr.2 :=
        List.mem_map.mpr ⟨u, hu, rfl⟩
      have := pyMaxBy_ge _ _ _ hb _ hcand
      rw [← hbt] at this
      exact this

/-- Witness for C1 at a concrete input: `N = 2`, two gold trees, four
generated trees (trees represented by numbers, the count function
supplied concretely). -/
theorem oracle_eval_best_of_n_micro_witness :
    (1 : Nat) ≤ 2 ∧
    (oracleReport (fun g t : Nat => (g + t, g, t)) 2 [1, 2] [3, 4, 5, 6]).isSome = true := by
  have h := oracle_eval_best_of_n_micro (fun g t : Nat => (g + t, g, t))
    2 [1, 2] [3, 4, 5, 6] (by decide)
  refine ⟨by decide, ?_⟩
  rw [h.1]
  rfl

/-! ## C9: the `-s` option of `asearch_gen` -/

theorem do_shorts_keys (optchars shortopts : List Char) (args : List String)
    (opts : List Opt) (args2 : List String)
    (h : do_shorts optchars shortopts args = .ok (opts, args2)) :
    ∀ p ∈ opts, ∃ c b, p.1 = optName c ∧ short_has_arg c shortopts = .ok b := by
  induction optchars generalizing opts args2 with
  | nil =>
    simp only [do_shorts, Except.ok.injEq, Prod.mk.injEq] at h
    intro p hp
    rw [← h.1] at hp
    simp at hp
  | cons opt rest ih =>
    simp only [do_shorts] at h
    rcases hsa : short_has_arg opt shortopts with e | b
    · rw [hsa] at h; exact absurd h (by simp)
    · rw [hsa] at h
      cases b with
      | true =>
        cases rest with
        | nil =>
          cases args with
          | nil => exact absurd h (by simp)
          | cons a args' =>
            simp only [Except.ok.injEq, Prod.mk.injEq] at h
            intro p hp
            rw [← h.1] at hp
            simp at hp
            exact ⟨opt, true, by rw [hp], hsa⟩
        | cons r rs =>
          simp only [Except.ok.injEq, Prod.mk.injEq] at h
          intro p hp
          rw [← h.1] at hp
          simp at hp
          exact ⟨opt, true, by rw [hp], hsa⟩
      | false =>
        rcases hrec : do_shorts rest shortopts args with e | pr
        · rw [hrec] at h; exact absurd h (by simp)
        · obtain ⟨o2, a2⟩ := pr
          rw [hrec] at h
          simp only [Except.ok.injEq, Prod.mk.injEq] at h
          intro p hp
          rw [← h.1] at hp
          rcases List.mem_cons.mp hp with h2 | h2
          · exact ⟨opt, false, by rw [h2], hsa⟩
          · exact ih o2 a2 hrec p h2

theorem getoptGo_keys_aux (shortopts : List Char) :
    ∀ (k : Nat) (args : List String), args.length ≤ k →
      ∀ (opts : List Opt) (files : List String),
        getoptGo shortopts args = .ok (opts, files) →
        ∀ p ∈ opts, ∃ c b, p.1 = optName c ∧ short_has_arg c shortopts = .ok b := by
  intro k
  induction k with
  | zero =>
    intro args hl opts files h p hp
    have : args = [] := List.eq_nil_of_length_eq_zero (Nat.le_zero.mp hl)
    subst this
    unfold getoptGo at h
    simp only [Except.ok.injEq, Prod.mk.injEq] at h
    rw [← h.1] at hp
    simp at hp
  | succ k ih =>
    intro args hl opts files h p hp
    cases args with
    | nil =>
      unfold getoptGo at h
      simp only [Except.ok.injEq, Prod.mk.injEq] at h
      rw [← h.1] at hp
      simp at hp
    | cons a rest =>
      unfold getoptGo at h
      split at h
      · simp only [Except.ok.injEq, Prod.mk.injEq] at h
        rw [← h.1] at hp
        simp at hp
      · split at h
        · simp only [Except.ok.injEq, Prod.mk.injEq] at h
          rw [← h.1] at hp
          simp at hp
        · split at h
          · exact absurd h (by simp)
          · split at h
            · exact absurd h (by simp)
            · next newopts args2 hds =>
              split at h
              · exact absurd h (by simp)
              · next opts2 files2 hgo =>
                simp only [Except.ok.injEq, Prod.mk.injEq] at h
                rw [← h.1] at hp
                rcases List.mem_append.mp hp with h2 | h2
                · exact do_shorts_keys _ _ _ _ _ hds p h2
                · have hlen := do_shorts_args_le _ _ _ _ _ hds
                  simp only [List.length_cons] at hl
                  exact ih args2 (by omega) opts2 files2 hgo p h2

theorem getoptGo_keys (shortopts : List Char) (args : List String)
    (opts : List Opt) (files : List String)
    (h : getoptGo shortopts args = .ok (opts, files)) :
    ∀ p ∈ opts, ∃ c b, p.1 = optName c ∧ short_has_arg c shortopts = .ok b :=
  getoptGo_keys_aux shortopts args.length args (le_refl _) opts files h

theorem optName_inj {c d : Char} (h : optName c = optName d) : c = d := by
  have : (optName c).toList = (optName d).toList := by rw [h]
  simp only [optName] at this
  have h2 : ['-', c] = ['-', d] := this
  simp at h2
  exact h2

theorem asearchLoop_selector (opts : List Opt) :
    ∀ (ps : ASearchParams) (tr : List Effect), (∀ p ∈ opts, p.1 ≠ "-s") →
      ((asearchLoop opts ps tr).2).eval_selector = ps.eval_selector := by
  induction opts with
  | nil => intro ps tr _; rfl
  | cons p rest ih =>
    intro ps tr h
    obtain ⟨o, a⟩ := p
    have ho : o ≠ "-s" := h (o, a) (List.mem_cons_self _ _)
    have hrest : ∀ q ∈ rest, q.1 ≠ "-s" :=
      fun q hq => h q (List.mem_cons_of_mem _ hq)
    unfold asearchLoop
    by_cases h1 : o = "-e"
    · simp only [if_pos h1]
      exact ih _ _ hrest
    · simp only [if_neg h1]
      by_cases h2 : o = "-s"
      · exact absurd h2 ho
      · simp only [if_neg h2]
        by_cases h3 : o = "-d"
        · simp only [if_pos h3]
          exact ih _ _ hrest
        · simp only [if_neg h3]
          by_cases h4 : o = "-w"
          · simp only [if_pos h4]
            exact ih _ _ hrest
          · simp only [if_neg h4]
            by_cases h5 : o = "-c"
            · simp only [if_pos h5]
              exact ih _ _ hrest
            · simp only [if_neg h5]
              exact ih _ _ hrest

/-- C9: `asearch_gen`'s getopt option string `e:d:w:c:` does not accept
`s`: an invocation whose option region starts with `-s` raises
`GetoptError` (modelled as the error result Python would leave uncaught),
and in every invocation whose option parsing succeeds no `-s` option can
be present, so `eval_selector` keeps its initial value, the empty
string. -/
theorem asearch_gen_dash_s_fatal_and_selector_empty :
    (∀ rest : List String,
       getopt ("-s" :: rest) "e:d:w:c:" = .error "option -s not recognized") ∧
    (∀ (args : List String) (opts : List Opt) (files : List String),
       getopt args "e:d:w:c:" = .ok (opts, files) →
       ((asearchLoop opts asearchInit []).2).eval_selector = "") := by
  constructor
  · intro rest
    unfold getopt getoptGo
    simp [strStartsWith, List.isPrefixOf, do_shorts, short_has_arg, optName]
  · intro args opts files h
    have hkeys := getoptGo_keys _ args opts files h
    have hns : ∀ p ∈ opts, p.1 ≠ "-s" := by
      intro p hp hps
      obtain ⟨c, b, hc, hb⟩ := hkeys p hp
      rw [hps] at hc
      have hcs : c = 's' := by
        have : optName 's' = optName c := by
          rw [← hc]
          rfl
        exact (optName_inj this).symm
      subst hcs
      have : short_has_arg 's' "e:d:w:c:".toList =
          .error "option -s not recognized" := by
        simp [short_has_arg, optName]
      rw [this] at hb
      exact absurd hb (by simp)
    exact asearchLoop_selector opts asearchInit [] hns

/-- Witness for C9 at concrete inputs. -/
theorem asearch_gen_dash_s_witness :
    getopt ["-s"] "e:d:w:c:" = .error "option -s not recognized" ∧
    ((asearchLoop [("-e", "f")] asearchInit []).2).eval_selector = "" := by
  have h := asearch_gen_dash_s_fatal_and_selector_empty
  refine ⟨h.1 [], h.2 ["-e", "f", "a", "b", "c"] [("-e", "f")] ["a", "b", "c"] ?_⟩
  simp [getopt, getoptGo, strStartsWith, List.isPrefixOf, do_shorts,
        short_has_arg, optName]

/-! ## C10: the `-r` option of `sample_gen` -/

theorem sampleGenStep_r (ps : SampleGenParams) (v : String) :
    sampleGenStep ps ("-r", v) = some ps := by
  simp [sampleGenStep]

theorem sampleGenFoldM_filter_r (opts : List Opt) :
    ∀ init : SampleGenParams,
      List.foldlM sampleGenStep init (opts.filter (fun p => p.1 ≠ "-r")) =
        List.foldlM sampleGenStep init opts := by
  induction opts with
  | nil => intro init; rfl
  | cons p rest ih =>
    intro init
    by_cases hr : p.1 = "-r"
    · obtain ⟨o, a⟩ := p
      simp only at hr
      subst hr
      have hfil : (("-r", a) :: rest).filter (fun q => q.1 ≠ "-r") =
          rest.filter (fun q => q.1 ≠ "-r") := by
        simp [List.filter_cons]
      rw [hfil, ih init]
      simp [List.foldlM_cons, sampleGenStep_r]
    · have hfil : (p :: rest).filter (fun q => q.1 ≠ "-r") =
          p :: rest.filter (fun q => q.1 ≠ "-r") := by
        simp [List.filter_cons, hr]
      rw [hfil]
      simp only [List.foldlM_cons]
      cases hstep : sampleGenStep init p with
      | none => simp [hstep]
      | some ps2 =>
        simp only [hstep, Option.bind_eq_bind, Option.some_bind]
        exact ih ps2

theorem sampleGenFold_cons_r (v : String) (opts : List Opt) :
    sampleGenFold (("-r", v) :: opts) = sampleGenFold opts := by
  simp [sampleGenFold, List.foldlM_cons, sampleGenStep_r]

/-- C10: `sample_gen`'s option string accepts `-r` with an argument, but
no handler reads it: prepending `-r v` to any successfully parsed
invocation yields exactly the same behavior (the whole outcome, hence
`num_to_generate`, `oracle_eval_file` and the output file name, is
unchanged), and dropping all `-r` options from a parsed option list
leaves the option-loop result unchanged. -/
theorem sample_gen_ignores_dash_r (v : String) (args : List String)
    (opts : List Opt) (files : List String)
    (h : getopt args "r:n:o:w:" = .ok (opts, files)) :
    sample_gen ("-r" :: v :: args) = sample_gen args ∧
    sampleGenFold (opts.filter (fun p => p.1 ≠ "-r")) = sampleGenFold opts := by
  refine ⟨?_, sampleGenFoldM_filter_r opts sampleGenInit⟩
  have h2 : getoptGo ['r', ':', 'n', ':', 'o', ':', 'w', ':'] args =
      Except.ok (opts, files) := h
  have hg : getopt ("-r" :: v :: args) "r:n:o:w:" = .ok (("-r", v) :: opts, files) := by
    simp [getopt, getoptGo, strStartsWith, List.isPrefixOf, do_shorts,
          short_has_arg, optName, h2]
  unfold sample_gen
  rw [hg, h]
  simp only [sampleGenFold_cons_r]

/-- Witness for C10 at concrete inputs. -/
theorem sample_gen_ignores_dash_r_witness :
    sample_gen ("-r" :: "x" :: ["m", "d"]) = sample_gen ["m", "d"] ∧
    sampleGenFold (([] : List Opt).filter (fun p => p.1 ≠ "-r")) =
      sampleGenFold [] := by
  refine sample_gen_ignores_dash_r "x" ["m", "d"] [] ["m", "d"] ?_
  simp [getopt, getoptGo, strStartsWith, List.isPrefixOf]

/-! ## C6: `candgen_train` option handling and train-then-save order -/

theorem lastPFrom_cons (acc : Option String) (p : Opt) (rest : List Opt) :
    lastPFrom acc (p :: rest) =
      lastPFrom (if p.1 = "-p" then some p.2 else acc) rest := rfl

theorem lastPFrom_no_p (opts : List Opt) :
    ∀ acc, (∀ p ∈ opts, p.1 ≠ "-p") → lastPFrom acc opts = acc := by
  induction opts with
  | nil => intro acc _; rfl
  | cons p rest ih =>
    intro acc h
    have hp : p.1 ≠ "-p" := h p (List.mem_cons_self _ _)
    rw [lastPFrom_cons, if_neg hp]
    exact ih acc (fun q hq => h q (List.mem_cons_of_mem _ hq))

theorem lastPFrom_some (opts : List Opt) :
    ∀ (a : String), lastPFrom none opts = some a →
      ∀ acc, lastPFrom acc opts = some a := by
  induction opts with
  | nil =>
    intro a h acc
    exact absurd h (by simp [lastPFrom])
  | cons p rest ih =>
    intro a h acc
    rw [lastPFrom_cons] at h ⊢
    by_cases hp : p.1 = "-p"
    · rw [if_pos hp] at h ⊢
      exact h
    · rw [if_neg hp] at h ⊢
      exact ih a h acc

theorem candgenFold_char (opts : List Opt) :
    ∀ (acc : Int) (pt : Int), List.foldlM candgenStep acc opts = some pt →
      ((∀ p ∈ opts, p.1 ≠ "-p") ∧ pt = acc) ∨
      (∃ a, lastPArg opts = some a ∧ pyInt a = some pt) := by
  induction opts with
  | nil =>
    intro acc pt h
    left
    refine ⟨by simp, ?_⟩
    simp only [List.foldlM_nil] at h
    have : some acc = some pt := h
    simp at this
    exact this.symm
  | cons p rest ih =>
    intro acc pt h
    simp only [List.foldlM_cons, Option.bind_eq_bind] at h
    by_cases hp : p.1 = "-p"
    · rw [show candgenStep acc p = pyInt p.2 from by simp [candgenStep, hp]] at h
      cases hv : pyInt p.2 with
      | none =>
        rw [hv] at h
        simp at h
      | some v =>
        rw [hv] at h
        simp only [Option.some_bind] at h
        rcases ih v pt h with ⟨hnone, hpt⟩ | ⟨a, ha, hpa⟩
        · right
          refine ⟨p.2, ?_, ?_⟩
          · unfold lastPArg
            rw [lastPFrom_cons, if_pos hp]
            exact lastPFrom_no_p rest (some p.2) hnone
          · rw [hpt]
            exact hv
        · right
          refine ⟨a, ?_, hpa⟩
          unfold lastPArg
          rw [lastPFrom_cons, if_pos hp]
          exact lastPFrom_some rest a ha (some p.2)
    · rw [show candgenStep acc p = some acc from by simp [candgenStep, hp]] at h
      simp only [Option.some_bind] at h
      rcases ih acc pt h with ⟨hnone, hpt⟩ | ⟨a, ha, hpa⟩
      · left
        refine ⟨?_, hpt⟩
        intro q hq
        rcases List.mem_cons.mp hq with h2 | h2
        · rw [h2]
          exact hp
        · exact hnone q h2
      · right
        refine ⟨a, ?_, hpa⟩
        unfold lastPArg
        rw [lastPFrom_cons, if_neg hp]
        exact ha

/-- C6: `candgen_train` builds the candidate generator with
`prune_threshold` equal to the integer value of the (last) `-p` option,
defaulting to 1 when `-p` is absent, and on a successful run the trace
is exactly log, construct, train on the given dialogue-act and tree
files, then save to the output file: training precedes saving and saving
always follows the successful training. -/
theorem candgen_train_prune_train_save (args : List String) (opts : List Opt)
    (fda ftt fm : String) (pt : Int)
    (hg : getopt args "p:" = .ok (opts, [fda, ftt, fm]))
    (hp : candgenPrune opts = some pt) :
    candgen_train args = .finished
      [.logInfo "Training candidate generator...", .mkCandgen pt,
       .trainCandgen fda ftt, .saveCandgenModel fm] ∧
    ((∀ p ∈ opts, p.1 ≠ "-p") → pt = 1) ∧
    (∀ a, lastPArg opts = some a → pyInt a = some pt) := by
  refine ⟨?_, ?_, ?_⟩
  · unfold candgen_train
    rw [hg]
    simp only [hp]
  · intro hnp
    rcases candgenFold_char opts 1 pt hp with ⟨_, hpt⟩ | ⟨a, ha, _⟩
    · exact hpt
    · rw [show lastPArg opts = none from lastPFrom_no_p opts none hnp] at ha
      exact absurd ha (by simp)
  · intro a ha
    rcases candgenFold_char opts 1 pt hp with ⟨hnp, _⟩ | ⟨a2, ha2, hpa2⟩
    · rw [show lastPArg opts = none from lastPFrom_no_p opts none hnp] at ha
      exact absurd ha (by simp)
    · rw [ha] at ha2
      have : a2 = a := by
        have h2 : some a = some a2 := ha2
        simp at h2
        exact h2.symm
      rw [← this]
      exact hpa2

/-- Witness for C6 at concrete inputs: `-p 5` and three files. -/
theorem candgen_train_prune_train_save_witness :
    candgen_train ["-p", "5", "a", "b", "c"] = .finished
      [.logInfo "Training candidate generator...", .mkCandgen 5,
       .trainCandgen "a" "b", .saveCandgenModel "c"] ∧
    ((∀ p ∈ [(("-p", "5") : Opt)], p.1 ≠ "-p") → (5 : Int) = 1) ∧
    (∀ a, lastPArg [(("-p", "5") : Opt)] = some a → pyInt a = some 5) := by
  refine candgen_train_prune_train_save ["-p", "5", "a", "b", "c"]
    [("-p", "5")] "a" "b" "c" 5 ?_ (by decide)
  simp [getopt, getoptGo, strStartsWith, List.isPrefixOf, do_shorts,
        short_has_arg, optName]

/-! ## C5: wrong positional-argument counts are fatal before any model
operation -/

theorem percrankLoop_trace (opts : List Opt) :
    ∀ (ps : PercrankParams) (tr : List Effect),
      (∀ e ∈ tr, e.touchesModel = false) →
      ∀ e ∈ (percrankLoop opts ps tr).1, e.touchesModel = false := by
  induction opts with
  | nil => intro ps tr h; exact h
  | cons p rest ih =>
    intro ps tr h
    obtain ⟨o, a⟩ := p
    have hd : ∀ e ∈ tr ++ [Effect.setDebugStream a], e.touchesModel = false := by
      intro e he
      rcases List.mem_append.mp he with he1 | he2
      · exact h e he1
      · simp at he2
        rw [he2]
        rfl
    unfold percrankLoop
    by_cases h1 : o = "-d"
    · simp only [if_pos h1]
      exact ih _ _ hd
    · simp only [if_neg h1]
      by_cases h2 : o = "-s"
      · simp only [if_pos h2]
        rcases hf : pyFloat a with _ | v
        · exact h
        · exact ih _ _ h
      · simp only [if_neg h2]
        by_cases h3 : o = "-c"
        · simp only [if_pos h3]
          exact ih _ _ h
        · simp only [if_neg h3]
          by_cases h4 : o = "-j"
          · simp only [if_pos h4]
            rcases hj : pyInt a with _ | v
            · exact h
            · exact ih _ _ h
          · simp only [if_neg h4]
            by_cases h5 : o = "-w"
            · simp only [if_pos h5]
              exact ih _ _ h
            · simp only [if_neg h5]
              exact ih _ _ h

theorem asearchLoop_trace (opts : List Opt) :
    ∀ (ps : ASearchParams) (tr : List Effect),
      (∀ e ∈ tr, e.touchesModel = false) →
      ∀ e ∈ (asearchLoop opts ps tr).1, e.touchesModel = false := by
  induction opts with
  | nil => intro ps tr h; exact h
  | cons p rest ih =>
    intro ps tr h
    obtain ⟨o, a⟩ := p
    have hd : ∀ e ∈ tr ++ [Effect.setDebugStream a], e.touchesModel = false := by
      intro e he
      rcases List.mem_append.mp he with he1 | he2
      · exact h e he1
      · simp at he2
        rw [he2]
        rfl
    unfold asearchLoop
    by_cases h1 : o = "-e"
    · simp only [if_pos h1]
      exact ih _ _ h
    · simp only [if_neg h1]
      by_cases h2 : o = "-s"
      · simp only [if_pos h2]
        exact ih _ _ h
      · simp only [if_neg h2]
        by_cases h3 : o = "-d"
        · simp only [if_pos h3]
          exact ih _ _ hd
        · simp only [if_neg h3]
          by_cases h4 : o = "-w"
          · simp only [if_pos h4]
            exact ih _ _ h
          · simp only [if_neg h4]
            by_cases h5 : o = "-c"
            · simp only [if_pos h5]
              exact ih _ _ h
            · simp only [if_neg h5]
              exact ih _ _ h

/-- C5: for every action, a number of positional file arguments
different from its required count (3 for `candgen_train`, 4 for
`percrank_train`, 2 for `sample_gen`, 3 for `asearch_gen`) terminates
the run via `sys.exit` whose message ends with the usage text, before
any model is constructed, loaded, trained, or saved (the trace at exit
holds at most the debug-stream effects of the option loop). -/
theorem wrong_file_count_exits_with_usage :
    (∀ (args : List String) (opts : List Opt) (files : List String) (pt : Int),
       getopt args "p:" = .ok (opts, files) → candgenPrune opts = some pt →
       files.length ≠ 3 →
       candgen_train args = .exited [] docString) ∧
    (∀ (args : List String) (opts : List Opt) (files : List String)
       (tr : List Effect) (ps : PercrankParams),
       getopt args "c:d:s:j:w:" = .ok (opts, files) →
       percrankLoop opts percrankInit [] = (tr, some ps) →
       files.length ≠ 4 →
       percrank_train args = .exited tr docString ∧
         ∀ e ∈ tr, e.touchesModel = false) ∧
    (∀ (args : List String) (opts : List Opt) (files : List String)
       (ps : SampleGenParams),
       getopt args "r:n:o:w:" = .ok (opts, files) →
       sampleGenFold opts = some ps →
       files.length ≠ 2 →
       sample_gen args = .exited [] docString) ∧
    (∀ (args : List String) (opts : List Opt) (files : List String),
       getopt args "e:d:w:c:" = .ok (opts, files) →
       files.length ≠ 3 →
       asearch_gen args = .exited (asearchLoop opts asearchInit []).1
         ("Invalid arguments.\n" ++ docString) ∧
         ∀ e ∈ (asearchLoop opts asearchInit []).1, e.touchesModel = false) := by
  refine ⟨?_, ?_, ?_, ?_⟩
  · intro args opts files pt hg hp hlen
    unfold candgen_train
    rw [hg]
    simp only [hp]
    rcases files with _ | ⟨a, _ | ⟨b, _ | ⟨c, _ | ⟨d, rest⟩⟩⟩⟩
    · rfl
    · rfl
    · rfl
    · simp at hlen
    · rfl
  · intro args opts files tr ps hg hloop hlen
    constructor
    · unfold percrank_train
      rw [hg]
      simp only [hloop]
      rcases files with _ | ⟨a, _ | ⟨b, _ | ⟨c, _ | ⟨d, _ | ⟨e, rest⟩⟩⟩⟩⟩
      · rfl
      · rfl
      · rfl
      · rfl
      · simp at hlen
      · rfl
    · intro e he
      refine percrankLoop_trace opts percrankInit [] (by simp) e ?_
      rw [hloop]
      exact he
  · intro args opts files ps hg hp hlen
    unfold sample_gen
    rw [hg]
    simp only [hp]
    rcases files with _ | ⟨a, _ | ⟨b, _ | ⟨c, rest⟩⟩⟩
    · rfl
    · rfl
    · simp at hlen
    · rfl
  · intro args opts files hg hlen
    rcases hloop : asearchLoop opts asearchInit [] with ⟨tr, ps⟩
    constructor
    · unfold asearch_gen
      rw [hg]
      simp only [hloop]
      rcases files with _ | ⟨a, _ | ⟨b, _ | ⟨c, _ | ⟨d, rest⟩⟩⟩⟩
      · rfl
      · rfl
      · rfl
      · simp at hlen
      · rfl
    · intro e he
      refine asearchLoop_trace opts asearchInit [] (by simp) e ?_
      rw [hloop]
      exact he

/-- Witness for C5 at concrete inputs: each action invoked with a single
positional argument. -/
theorem wrong_file_count_exits_with_usage_witness :
    candgen_train ["a"] = .exited [] docString ∧
    (percrank_train ["a"] = .exited [] docString ∧
      ∀ e ∈ ([] : List Effect), e.touchesModel = false) ∧
    sample_gen ["a"] = .exited [] docString ∧
    (asearch_gen ["a"] = .exited (asearchLoop [] asearchInit []).1
        ("Invalid arguments.\n" ++ docString) ∧
      ∀ e ∈ (asearchLoop [] asearchInit []).1, e.touchesModel = false) := by
  have h := wrong_file_count_exits_with_usage
  refine ⟨h.1 ["a"] [] ["a"] 1 ?_ rfl (by decide),
          h.2.1 ["a"] [] ["a"] [] percrankInit ?_ rfl (by decide),
          h.2.2.1 ["a"] [] ["a"] sampleGenInit ?_ rfl (by decide),
          h.2.2.2 ["a"] [] ["a"] ?_ (by decide)⟩ <;>
    simp [getopt, getoptGo, strStartsWith, List.isPrefixOf]

/-! ## C3: `sample_gen` builds its planner from the candidate generator
only -/

/-- C3: in a successful `sample_gen` run, the only model-load effect is
loading the candidate-generator model from the first positional file;
the `SamplingPlanner` is constructed with that same loaded object as
both its `candgen` and its `ranker`, and no perceptron ranker model is
loaded. -/
theorem sample_gen_planner_candgen_only (args : List String) (opts : List Opt)
    (fcm fdt : String) (ps : SampleGenParams)
    (hg : getopt args "r:n:o:w:" = .ok (opts, [fcm, fdt]))
    (hp : sampleGenFold opts = some ps) :
    ∃ tr, sample_gen args = .finished tr ∧
      Effect.mkSamplingPlanner (.candgenFrom fcm) (.candgenFrom fcm) ∈ tr ∧
      (∀ c r, Effect.mkSamplingPlanner c r ∈ tr →
        c = ModelObj.candgenFrom fcm ∧ r = ModelObj.candgenFrom fcm) ∧
      tr.filter (fun e => e.isModelLoad) = [Effect.loadCandgenModel fcm] ∧
      (∀ f, Effect.loadPercrankModel f ∉ tr) := by
  have hrun : sample_gen args = .finished
      ([.logInfo "Initializing...",
        .loadCandgenModel fcm,
        .mkSamplingPlanner (.candgenFrom fcm) (.candgenFrom fcm),
        .logInfo "Generating...",
        .readDAs fdt,
        .sampleGenerate ps.num_to_generate] ++
       (match ps.oracle_eval_file with
        | some f => [.logInfo "Evaluating oracle F1...",
                     .logInfo ("Loading gold data from " ++ f),
                     .readTTrees f,
                     .logInfo "Gold data loaded.",
                     .oracleEvalReport f]
        | none => []) ++
       (match ps.fname_ttrees_out with
        | some f => [.logInfo "Writing output...", .writeOutput f]
        | none => [])) := by
    unfold sample_gen
    rw [hg]
    simp only [hp]
  refine ⟨_, hrun, ?_, ?_, ?_, ?_⟩
  · rcases ps with ⟨n, oef, fto⟩
    rcases oef with _ | f1 <;> rcases fto with _ | f2 <;> simp
  · intro c r hm
    rcases ps with ⟨n, oef, fto⟩
    rcases oef with _ | f1 <;> rcases fto with _ | f2 <;>
      · simp at hm
        exact ⟨hm.1, hm.2⟩
  · rcases ps with ⟨n, oef, fto⟩
    rcases oef with _ | f1 <;> rcases fto with _ | f2 <;>
      simp [List.filter, Effect.isModelLoad]
  · intro f
    rcases ps with ⟨n, oef, fto⟩
    rcases oef with _ | f1 <;> rcases fto with _ | f2 <;> simp

/-- Witness for C3 at concrete inputs. -/
theorem sample_gen_planner_candgen_only_witness :
    ∃ tr, sample_gen ["m", "d"] = .finished tr ∧
      Effect.mkSamplingPlanner (.candgenFrom "m") (.candgenFrom "m") ∈ tr ∧
      (∀ c r, Effect.mkSamplingPlanner c r ∈ tr →
        c = ModelObj.candgenFrom "m" ∧ r = ModelObj.candgenFrom "m") ∧
      tr.filter (fun e => e.isModelLoad) = [Effect.loadCandgenModel "m"] ∧
      (∀ f, Effect.loadPercrankModel f ∉ tr) := by
  refine sample_gen_planner_candgen_only ["m", "d"] [] "m" "d" sampleGenInit ?_ rfl
  simp [getopt, getoptGo, strStartsWith, List.isPrefixOf]

/-! ## C4: `__main__` seeds the RNG with 1206 before dispatching -/

theorem seedsOf_append (a b : List Effect) :
    seedsOf (a ++ b) = seedsOf a ++ seedsOf b := by
  simp [seedsOf, List.filterMap_append]

theorem percrankLoop_seeds (opts : List Opt) :
    ∀ (ps : PercrankParams) (tr : List Effect),
      seedsOf (percrankLoop opts ps tr).1 = seedsOf tr := by
  induction opts with
  | nil => intro ps tr; rfl
  | cons p rest ih =>
    intro ps tr
    obtain ⟨o, a⟩ := p
    have hd : seedsOf (tr ++ [Effect.setDebugStream a]) = seedsOf tr := by
      rw [seedsOf_append]
      simp [seedsOf]
    unfold percrankLoop
    by_cases h1 : o = "-d"
    · simp only [if_pos h1]
      rw [ih _ _, hd]
    · simp only [if_neg h1]
      by_cases h2 : o = "-s"
      · simp only [if_pos h2]
        rcases hf : pyFloat a with _ | v
        · rfl
        · exact ih _ _
      · simp only [if_neg h2]
        by_cases h3 : o = "-c"
        · simp only [if_pos h3]
          exact ih _ _
        · simp only [if_neg h3]
          by_cases h4 : o = "-j"
          · simp only [if_pos h4]
            rcases hj : pyInt a with _ | v
            · rfl
            · exact ih _ _
          · simp only [if_neg h4]
            by_cases h5 : o = "-w"
            · simp only [if_pos h5]
              exact ih _ _
            · simp only [if_neg h5]
              exact ih _ _

theorem asearchLoop_seeds (opts : List Opt) :
    ∀ (ps : ASearchParams) (tr : List Effect),
      seedsOf (asearchLoop opts ps tr).1 = seedsOf tr := by
  induction opts with
  | nil => intro ps tr; rfl
  | cons p rest ih =>
    intro ps tr
    obtain ⟨o, a⟩ := p
    have hd : seedsOf (tr ++ [Effect.setDebugStream a]) = seedsOf tr := by
      rw [seedsOf_append]
      simp [seedsOf]
    unfold asearchLoop
    by_cases h1 : o = "-e"
    · simp only [if_pos h1]
      exact ih _ _
    · simp only [if_neg h1]
      by_cases h2 : o = "-s"
      · simp only [if_pos h2]
        exact ih _ _
      · simp only [if_neg h2]
        by_cases h3 : o = "-d"
        · simp only [if_pos h3]
          rw [ih _ _, hd]
        · simp only [if_neg h3]
          by_cases h4 : o = "-w"
          · simp only [if_pos h4]
            exact ih _ _
          · simp only [if_neg h4]
            by_cases h5 : o = "-c"
            · simp only [if_pos h5]
              exact ih _ _
            · simp only [if_neg h5]
              exact ih _ _

theorem candgen_train_seeds (args : List String) :
    seedsOf (candgen_train args).trace = [] := by
  unfold candgen_train
  rcases hg : getopt args "p:" with e | ⟨opts, files⟩
  · simp [Outcome.trace, seedsOf]
  · simp only []
    rcases hp : candgenPrune opts with _ | pt
    · simp [Outcome.trace, seedsOf]
    · rcases files with _ | ⟨a, _ | ⟨b, _ | ⟨c, _ | ⟨d, rest⟩⟩⟩⟩ <;>
        simp [Outcome.trace, seedsOf]

theorem percrank_train_seeds (args : List String) :
    seedsOf (percrank_train args).trace = [] := by
  unfold percrank_train
  rcases hg : getopt args "c:d:s:j:w:" with e | ⟨opts, files⟩
  · simp [Outcome.trace, seedsOf]
  · simp only []
    rcases hloop : percrankLoop opts percrankInit [] with ⟨tr, ops⟩
    have hseeds : seedsOf tr = [] := by
      have := percrankLoop_seeds opts percrankInit []
      rw [hloop] at this
      exact this
    rcases ops with _ | ps
    · simp [Outcome.trace, hseeds]
    · rcases files with _ | ⟨a, _ | ⟨b, _ | ⟨c, _ | ⟨d, _ | ⟨e2, rest⟩⟩⟩⟩⟩
      · simp [Outcome.trace, hseeds]
      · simp [Outcome.trace, hseeds]
      · simp [Outcome.trace, hseeds]
      · simp [Outcome.trace, hseeds]
      · simp only [Outcome.trace, seedsOf_append, List.append_assoc]
        rw [hseeds]
        rcases hpar : ps.parallel with _ | _ <;>
          simp [seedsOf, seedsOf_append, hpar]
      · simp [Outcome.trace, hseeds]


theorem sample_gen_seeds (args : List String) :
    seedsOf (sample_gen args).trace = [] := by
  unfold sample_gen
  rcases hg : getopt args "r:n:o:w:" with e | ⟨opts, files⟩
  · simp [Outcome.trace, seedsOf]
  · simp only []
    rcases hp : sampleGenFold opts with _ | ps
    · simp [Outcome.trace, seedsOf]
    · rcases files with _ | ⟨a, _ | ⟨b, rest⟩⟩
      · simp [Outcome.trace, seedsOf]
      · simp [Outcome.trace, seedsOf]
      · rcases rest with _ | ⟨c, rest2⟩
        · rcases ps with ⟨n, oef, fto⟩
          rcases oef with _ | f1 <;> rcases fto with _ | f2 <;>
            simp [Outcome.trace, seedsOf, seedsOf_append]
        · simp [Outcome.trace, seedsOf]

theorem asearch_gen_seeds (args : List String) :
    seedsOf (asearch_gen args).trace = [] := by
  unfold asearch_gen
  rcases hg : getopt args "e:d:w:c:" with e | ⟨opts, files⟩
  · simp [Outcome.trace, seedsOf]
  · simp only []
    rcases hloop : asearchLoop opts asearchInit [] with ⟨tr, ps⟩
    have hseeds : seedsOf tr = [] := by
      have := asearchLoop_seeds opts asearchInit []
      rw [hloop] at this
      exact this
    rcases files with _ | ⟨a, _ | ⟨b, _ | ⟨c, _ | ⟨d, rest⟩⟩⟩⟩
    · simp [Outcome.trace, hseeds]
    · simp [Outcome.trace, hseeds]
    · simp [Outcome.trace, hseeds]
    · rcases ps with ⟨ef, fto, cf, sel⟩
      simp only [Outcome.trace, seedsOf_append, List.append_assoc]
      rw [hseeds]
      rcases ef with _ | f1 <;> rcases fto with _ | f2 <;> rcases cf with _ | f3 <;>
        simp [seedsOf, seedsOf_append]
    · simp [Outcome.trace, hseeds]

theorem mainWrap_seeds (pre : List Effect) (o : Outcome) :
    seedsOf (mainWrap pre o).trace = seedsOf pre ++ seedsOf o.trace := by
  cases o <;> simp [mainWrap, Outcome.trace, seedsOf, List.filterMap_append]

theorem mainWrap_head (pre : List Effect) (o : Outcome) (e : Effect)
    (rest : List Effect) (h : pre = e :: rest) :
    ((mainWrap pre o).trace).head? = some e := by
  cases o <;> simp [mainWrap, Outcome.trace, h]

/-- C4: the `__main__` block seeds the process-wide random number
generator with the fixed constant 1206 before dispatching any action
(the trace's first effect is the seeding, and it is the only seeding of
the run), and the embedded driver is a pure function of its argument
vector, so two runs with identical arguments (hence identical model
files, configuration and inputs) produce identical outcomes. -/
theorem main_seeds_1206_before_dispatch (argv argv2 : List String)
    (h : argv = argv2) :
    ((tgenMain argv).trace).head? = some (Effect.seedRandom 1206) ∧
    seedsOf (tgenMain argv).trace = [1206] ∧
    tgenMain argv = tgenMain argv2 := by
  subst h
  refine ⟨?_, ?_, rfl⟩ <;>
  · unfold tgenMain
    by_cases hlen : argv.length < 3
    · simp [if_pos hlen, Outcome.trace, seedsOf]
    · simp only [if_neg hlen]
      by_cases h1 : argv.getD 1 "" = "candgen_train"
      · simp only [if_pos h1]
        first
          | exact mainWrap_head _ _ _ _ rfl
          | (rw [mainWrap_seeds, candgen_train_seeds]
             simp [seedsOf])
      · simp only [if_neg h1]
        by_cases h2 : argv.getD 1 "" = "percrank_train"
        · simp only [if_pos h2]
          first
            | exact mainWrap_head _ _ _ _ rfl
            | (rw [mainWrap_seeds, percrank_train_seeds]
               simp [seedsOf])
        · simp only [if_neg h2]
          by_cases h3 : argv.getD 1 "" = "random_gen"
          · simp only [if_pos h3]
            first
              | exact mainWrap_head _ _ _ _ rfl
              | (rw [mainWrap_seeds, sample_gen_seeds]
                 simp [seedsOf])
          · simp only [if_neg h3]
            by_cases h4 : argv.getD 1 "" = "asearch_gen"
            · simp only [if_pos h4]
              first
                | exact mainWrap_head _ _ _ _ rfl
                | (rw [mainWrap_seeds, asearch_gen_seeds]
                   simp [seedsOf])
            · simp only [if_neg h4]
              simp [Outcome.trace, seedsOf]

/-- Witness for C4 at a concrete argument vector. -/
theorem main_seeds_1206_before_dispatch_witness :
    ((tgenMain ["./tgen.py", "random_gen", "m", "d"]).trace).head? =
      some (Effect.seedRandom 1206) ∧
    seedsOf (tgenMain ["./tgen.py", "random_gen", "m", "d"]).trace = [1206] ∧
    tgenMain ["./tgen.py", "random_gen", "m", "d"] =
      tgenMain ["./tgen.py", "random_gen", "m", "d"] :=
  main_seeds_1206_before_dispatch ["./tgen.py", "random_gen", "m", "d"]
    ["./tgen.py", "random_gen", "m", "d"] rfl

/-! ## C8: the dispatcher handles `random_gen`, not `sample_gen` -/

/-- C8: the dispatcher runs sampling generation for the action name
`random_gen`; the name `sample_gen`, although documented in the usage
text, matches no dispatch branch and makes the process exit with the
unknown-action error message, having performed no generation. -/
theorem dispatch_random_gen_not_sample_gen (prog x : String)
    (rest : List String) :
    tgenMain (prog :: "random_gen" :: x :: rest) =
      mainWrap [Effect.seedRandom 1206, Effect.logRunningOn]
        (sample_gen (x :: rest)) ∧
    tgenMain (prog :: "sample_gen" :: x :: rest) =
      Outcome.exited [Effect.seedRandom 1206, Effect.logRunningOn]
        (unknownActionMsg "sample_gen") ∧
    unknownActionMsg "sample_gen" =
      "\nERROR: Unknown Tgen action: sample_gen\n\n---" ++ docString ∧
    (∃ pre post, docString = pre ++ "sample_gen" ++ post) ∧
    (∀ n : Int, Effect.sampleGenerate n ∉
      (tgenMain (prog :: "sample_gen" :: x :: rest)).trace) := by
  have hsg : tgenMain (prog :: "sample_gen" :: x :: rest) =
      Outcome.exited [Effect.seedRandom 1206, Effect.logRunningOn]
        (unknownActionMsg "sample_gen") := by
    unfold tgenMain
    rw [if_neg (by simp only [List.length_cons]; omega)]
    simp [List.getD]
  refine ⟨?_, hsg, ?_, ⟨docStringA, docStringB, rfl⟩, ?_⟩
  · unfold tgenMain
    rw [if_neg (by simp only [List.length_cons]; omega)]
    simp [List.getD]
  · have hcat : ("\nERROR: Unknown Tgen action: " ++ "sample_gen" ++
        "\n\n---" : String) = "\nERROR: Unknown Tgen action: sample_gen\n\n---" := by
      decide
    unfold unknownActionMsg
    rw [hcat]
  · intro n
    rw [hsg]
    simp [Outcome.trace]

end Tgen
